import Mathlib

/-!
Shallow embedding of the bone-targeting and procedural skeletal-animation
subsystem (src/anim_engine/bone_system.ts, bone_animations.ts, library.ts).

Modelling conventions:
* JavaScript strings are lists of characters (Str); toLowerCase, trim and
  includes are embedded below.
* JavaScript numbers are rationals; Math.sin and Math.cos are abstract
  parameters (JsMath), since the claims under study never depend on their
  values.
* A THREE.Bone is a record of name, uuid and local transform
  (position, rotation, scale).
* The scene graph is a tree of typed nodes; scene.traverse visits a node
  before its children (pre-order), and the bone system collects the nodes
  whose type tag is "Bone".
* Object references are embedded as indices into the traversal-ordered
  bone list: the cache maps keys to indices, and mutation of a bone through
  a cached reference is mutation of the list at that index.
* A JavaScript Map is an association list in key-insertion order; set on an
  existing key updates it in place, set on a fresh key appends.
-/

/-- Str models a JavaScript string as its list of characters. -/
abbrev Str := List Char

/-- chars converts a Lean string literal to the Str embedding. -/
def chars (s : String) : Str := s.data

/-- lowerStr models String.prototype.toLowerCase (ASCII letters). -/
def lowerStr (s : Str) : Str := s.map Char.toLower

/-- trimStr models String.prototype.trim: drop whitespace from both ends. -/
def trimStr (s : Str) : Str :=
  ((s.dropWhile Char.isWhitespace).reverse.dropWhile Char.isWhitespace).reverse

/-- headMatch needle hay is true when needle is a leading segment of hay. -/
def headMatch : Str → Str → Bool
  | [], _ => true
  | _ :: _, [] => false
  | c :: cs, d :: ds => c = d && headMatch cs ds

/-- strIncludes models String.prototype.includes: needle occurs contiguously in hay. -/
def strIncludes (hay needle : Str) : Bool :=
  headMatch needle hay ||
    match hay with
    | [] => false
    | _ :: t => strIncludes t needle

/-- Vec3 models the numeric x, y, z triple of a THREE.Vector3 or THREE.Euler. -/
structure Vec3 where
  x : ℚ
  y : ℚ
  z : ℚ
deriving DecidableEq, Repr

/-- Transform is the local position, rotation and scale of a scene node. -/
structure Transform where
  position : Vec3
  rotation : Vec3
  scale : Vec3
deriving DecidableEq, Repr

/-- Bone models a THREE.Bone: display name, unique identifier, local transform. -/
structure Bone where
  name : Str
  uuid : Str
  transform : Transform
deriving DecidableEq, Repr

/-- SceneNode models a THREE.Object3D subtree: a type tag, name, uuid,
local transform and children. -/
inductive SceneNode where
  | node (tpe : Str) (name : Str) (uuid : Str) (transform : Transform)
      (children : List SceneNode)

mutual

/-- bonesOf collects, in the pre-order of scene.traverse, every node whose
type tag is Bone, as the bone records the cache indexes. -/
def bonesOf : SceneNode → List Bone
  | SceneNode.node tpe nm uu tr cs =>
    (if tpe = chars "Bone" then [⟨nm, uu, tr⟩] else []) ++ bonesOfList cs

/-- bonesOfList traverses a child list in order. -/
def bonesOfList : List SceneNode → List Bone
  | [] => []
  | c :: cs => bonesOf c ++ bonesOfList cs

end

/-- mapSet models JavaScript Map.prototype.set: update an existing key in
place, otherwise append the new entry. -/
def mapSet {α : Type} (m : List (Str × α)) (k : Str) (v : α) : List (Str × α) :=
  if m.any (fun e => e.1 = k) then
    m.map (fun e => if e.1 = k then (k, v) else e)
  else m ++ [(k, v)]

/-- mapGet models Map.prototype.get (with the null default of the callers). -/
def mapGet {α : Type} (m : List (Str × α)) (k : Str) : Option α :=
  (m.find? (fun e => e.1 = k)).map Prod.snd

/-- mapDelete models Map.prototype.delete. -/
def mapDelete {α : Type} (m : List (Str × α)) (k : Str) : List (Str × α) :=
  m.filter (fun e => ¬ (e.1 = k))

/-- CacheT is the type of the BoneFinder boneCache: keys to bone references
(indices into the traversal-ordered bone list). -/
abbrev CacheT := List (Str × Nat)

/-- cacheOps lists the set operations rebuildCache performs: the traversal
emits, for the bone of index i, set(name.toLowerCase(), bone) and then
set(uuid, bone). -/
def cacheOps : Nat → List Bone → List (Str × Nat)
  | _, [] => []
  | i, b :: rest => (lowerStr b.name, i) :: (b.uuid, i) :: cacheOps (i + 1) rest

/-- rebuildCache models BoneFinder.rebuildCache: clear the cache, then apply
the two set operations per traversed bone, in traversal order. -/
def rebuildCache (bones : List Bone) : CacheT :=
  (cacheOps 0 bones).foldl (fun m e => mapSet m e.1 e.2) []

/-- findByName models BoneFinder.findByName: one lookup of the lower-cased name. -/
def findByName (cache : CacheT) (name : Str) : Option Nat :=
  mapGet cache (lowerStr name)

/-- findByUUID models BoneFinder.findByUUID: one lookup of the identifier. -/
def findByUUID (cache : CacheT) (uuid : Str) : Option Nat :=
  mapGet cache uuid

/-- patHit s p is the test s.toLowerCase().includes(p.toLowerCase().trim())
of findByPatterns. -/
def patHit (s p : Str) : Bool :=
  strIncludes (lowerStr s) (trimStr (lowerStr p))

/-- findInEntry is the inner loop of findByPatterns over the candidate
patterns for one cache entry: the key test, then the raw bone-name test. -/
def findInEntry (bones : List Bone) (key : Str) (i : Nat) : List Str → Bool
  | [] => false
  | p :: ps =>
    if patHit key p then true
    else if (match bones.get? i with
             | some b => patHit b.name p
             | none => false) then true
    else findInEntry bones key i ps

/-- findByPatterns models BoneFinder.findByPatterns: scan cache entries in
insertion order and return the first bone whose key or raw name contains
some candidate; null when none does. -/
def findByPatterns (bones : List Bone) : CacheT → List Str → Option Nat
  | [], _ => none
  | (k, i) :: rest, pats =>
    if findInEntry bones k i pats then some i else findByPatterns bones rest pats

/-- getAllBones models BoneFinder.getAllBones: Array.from(cache.values()),
one value per key in key-insertion order. -/
def getAllBones (cache : CacheT) : List Nat :=
  cache.map Prod.snd

/-- LabanWeight is the movement-amplitude quality of the animation context. -/
inductive LabanWeight where
  | light
  | strong
deriving DecidableEq, Repr

/-- LabanTime is the movement-tempo quality of the animation context. -/
inductive LabanTime where
  | sudden
  | sustained
deriving DecidableEq, Repr

/-- AnimationContext models the per-frame context record; every field of
the interface is optional. The open customParams bag is omitted: no
embedded animation function reads it (Eye_LookAt has no observable body). -/
structure AnimationContext where
  isSpeaking : Option Bool := none
  emotionIntensity : Option ℚ := none
  labanWeight : Option LabanWeight := none
  labanTime : Option LabanTime := none

/-- BoneAnimationFunc models the animation-function contract
(bone, t, delta, context) with an in-place mutation of the local transform,
embedded as a function from the old transform to the new one. -/
def BoneAnimationFunc : Type :=
  Transform → ℚ → ℚ → Option AnimationContext → Transform

/-- AnimEntry is the value stored in the controller table:
boneName (the target selector) and animation. -/
structure AnimEntry where
  boneName : Str
  animation : BoneAnimationFunc

/-- Diag records one console.warn diagnostic of update: the animation id
and the unresolved target selector. -/
structure Diag where
  id : Str
  boneName : Str
deriving DecidableEq

/-- BoneAnimationController state: the owned BoneFinder cache and the
activeAnimations table. The live bone objects the cache references are the
scene state passed to update, indexed in traversal order. -/
structure BoneAnimationController where
  cache : CacheT
  activeAnimations : List (Str × AnimEntry)

/-- mkController models the constructor: build the BoneFinder cache from
the scene, start with an empty activeAnimations table. -/
def mkController (scene : SceneNode) : BoneAnimationController :=
  ⟨rebuildCache (bonesOf scene), []⟩

/-- registerAnimation models BoneAnimationController.registerAnimation:
Map.set of the entry under the animation id. -/
def registerAnimation (c : BoneAnimationController) (animationId : Str)
    (boneNameOrPattern : Str) (animationFunc : BoneAnimationFunc) :
    BoneAnimationController :=
  { c with activeAnimations :=
      mapSet c.activeAnimations animationId ⟨boneNameOrPattern, animationFunc⟩ }

/-- unregisterAnimation models BoneAnimationController.unregisterAnimation. -/
def unregisterAnimation (c : BoneAnimationController) (animationId : Str) :
    BoneAnimationController :=
  { c with activeAnimations := mapDelete c.activeAnimations animationId }

/-- clearAll models BoneAnimationController.clearAll. -/
def clearAll (c : BoneAnimationController) : BoneAnimationController :=
  { c with activeAnimations := [] }

/-- update models BoneAnimationController.update: for each registration in
table order, resolve the selector through findByPatterns against the cache;
on success apply the animation to the resolved bone, otherwise emit one
console.warn diagnostic. Returns the mutated scene bones and the
diagnostics of this call. The inner get lookup cannot miss for caches built
by rebuildCache; the none branch leaves the scene unchanged. -/
def update (c : BoneAnimationController) (bones : List Bone) (t delta : ℚ)
    (ctx : Option AnimationContext) : List Bone × List Diag :=
  c.activeAnimations.foldl
    (fun st e =>
      match findByPatterns st.1 c.cache [e.2.boneName] with
      | some i =>
        match st.1.get? i with
        | some b =>
          (st.1.set i { b with transform := e.2.animation b.transform t delta ctx }, st.2)
        | none => (st.1, st.2)
      | none => (st.1, st.2 ++ [⟨e.1, e.2.boneName⟩]))
    (bones, [])

/-- SkeletonMap models the SkeletonMap class of bone_system.ts: one optional
bone reference per canonical role. -/
structure SkeletonMap where
  hips : Option Nat
  spine : Option Nat
  chest : Option Nat
  neck : Option Nat
  head : Option Nat
  leftArm : Option Nat
  leftForeArm : Option Nat
  leftHand : Option Nat
  rightArm : Option Nat
  rightForeArm : Option Nat
  rightHand : Option Nat
deriving DecidableEq, Repr

/-- mkSkeletonMap models the SkeletonMap constructor: build a private
BoneFinder, then resolve each role with its literal candidate list. -/
def mkSkeletonMap (scene : SceneNode) : SkeletonMap :=
  let bones := bonesOf scene
  let cache := rebuildCache bones
  let fp := fun (pats : List String) => findByPatterns bones cache (pats.map chars)
  { hips := fp ["Hips", "Pelvis", "Root", "mixamorigHips", "mixamorig_Hips",
      "bip001-pelvis", "bip001_pelvis"]
    spine := fp ["Spine", "Spine1", "Spine01", "mixamorigSpine", "mixamorig_Spine",
      "bip001-spine", "bip001_spine"]
    chest := fp ["Chest", "Spine2", "Spine02", "UpperChest", "mixamorigSpine1",
      "mixamorigSpine2", "mixamorig_Spine1", "mixamorig_Spine2",
      "bip001-spine1", "bip001_spine1"]
    neck := fp ["Neck", "Neck1", "mixamorigNeck", "mixamorig_Neck",
      "bip001-neck", "bip001_neck"]
    head := fp ["Head", "Head1", "mixamorigHead", "mixamorig_Head",
      "bip001-head", "bip001_head"]
    leftArm := fp ["LeftArm", "L_Arm", "L_UpperArm", "mixamorigLeftArm",
      "mixamorig_LeftArm", "bip001-l-upperarm", "bip001_l_upperarm"]
    leftForeArm := fp ["LeftForeArm", "L_ForeArm", "L_LowerArm",
      "mixamorigLeftForeArm", "mixamorig_LeftForeArm",
      "bip001-l-forearm", "bip001_l_forearm"]
    leftHand := fp ["LeftHand", "L_Hand", "L_Wrist", "mixamorigLeftHand",
      "mixamorig_LeftHand", "bip001-l-hand", "bip001_l_hand"]
    rightArm := fp ["RightArm", "R_Arm", "R_UpperArm", "mixamorigRightArm",
      "mixamorig_RightArm", "bip001-r-upperarm", "bip001_r_upperarm"]
    rightForeArm := fp ["RightForeArm", "R_ForeArm", "R_LowerArm",
      "mixamorigRightForeArm", "mixamorig_RightForeArm",
      "bip001-r-forearm", "bip001_r_forearm"]
    rightHand := fp ["RightHand", "R_Hand", "R_Wrist", "mixamorigRightHand",
      "mixamorig_RightHand", "bip001-r-hand", "bip001_r_hand"] }

/-- JsMath packages the Math.sin and Math.cos primitives as abstract
parameters: the claims under study never depend on their values. -/
structure JsMath where
  sin : ℚ → ℚ
  cos : ℚ → ℚ

/-- jsMod models the JavaScript remainder operator on numbers:
a % b = a - b * truncate(a / b), the sign following the dividend. -/
def jsMod (a b : ℚ) : ℚ :=
  a - b * (((if a / b < 0 then ⌈a / b⌉ else ⌊a / b⌋) : ℤ) : ℚ)

/-- optIsSpeaking models the truthiness of the optional chain
context?.isSpeaking. -/
def optIsSpeaking (ctx : Option AnimationContext) : Bool :=
  match ctx with
  | some c => c.isSpeaking.getD false
  | none => false

namespace library

/-- RotSpec models the partial rotation record argument of animateBone:
each axis is optionally present. -/
structure RotSpec where
  x : Option ℚ := none
  y : Option ℚ := none
  z : Option ℚ := none

/-- animateBone models the helper of library.ts: skip a missing bone, else
assign exactly the rotation axes present in the record. -/
def animateBone (bone : Option Bone) (rotation : RotSpec) : Option Bone :=
  match bone with
  | none => none
  | some b =>
    let r := b.transform.rotation
    let r := match rotation.x with | some v => { r with x := v } | none => r
    let r := match rotation.y with | some v => { r with y := v } | none => r
    let r := match rotation.z with | some v => { r with z := v } | none => r
    some { b with transform := { b.transform with rotation := r } }

/-- SkeletonMap models the SkeletonMap interface of library.ts: optional
bones per role (no chest slot in this interface). Slots hold the bones
themselves; a pose returns the map with its bones mutated. -/
structure SkeletonMap where
  hips : Option Bone := none
  spine : Option Bone := none
  neck : Option Bone := none
  head : Option Bone := none
  leftArm : Option Bone := none
  leftForeArm : Option Bone := none
  leftHand : Option Bone := none
  rightArm : Option Bone := none
  rightForeArm : Option Bone := none
  rightHand : Option Bone := none
deriving DecidableEq, Repr

/-- BodyAnimation is the full-body pose contract: skeleton map and elapsed
time to the mutated skeleton map. -/
def BodyAnimation : Type := SkeletonMap → ℚ → SkeletonMap

/-- Defiant_Flirty embeds FULL_BODY_ANIMATIONS["Defiant_Flirty"]. -/
def Defiant_Flirty (m : JsMath) : BodyAnimation := fun skel t =>
  let breathing := m.sin (t * 2) * 0.05
  let skel :=
    if skel.hips.isSome then
      { skel with hips :=
          animateBone skel.hips { z := some (-0.1 + breathing * 0.1), y := some 0.1 } }
    else skel
  let skel := { skel with spine := animateBone skel.spine { z := some 0.1, x := some 0.1 } }
  let skel := { skel with neck := animateBone skel.neck { x := some 0.1, y := some 0.1 } }
  let head1 :=
    animateBone skel.head
      { z := some (-0.2 + m.sin t * 0.02), x := some 0.2, y := some (-0.2) }
  let skel := { skel with head := head1 }
  let leftArm1 := animateBone skel.leftArm { z := some 1.0, x := some 0.8, y := some (-0.5) }
  let skel := { skel with leftArm := leftArm1 }
  let leftForeArm1 := animateBone skel.leftForeArm { z := some 0.1, x := some 2.2, y := some 0.5 }
  let skel := { skel with leftForeArm := leftForeArm1 }
  let rightArm1 := animateBone skel.rightArm { z := some (-1.0), x := some 0.8, y := some 0.5 }
  let skel := { skel with rightArm := rightArm1 }
  let rightForeArm1 := animateBone skel.rightForeArm { x := some 2.2, y := some (-0.5) }
  let skel := { skel with rightForeArm := rightForeArm1 }
  let skel := { skel with leftHand := animateBone skel.leftHand { x := some 0.2 } }
  let skel := { skel with rightHand := animateBone skel.rightHand { x := some 0.2 } }
  skel

/-- Power_Pose embeds FULL_BODY_ANIMATIONS["Power_Pose"]. -/
def Power_Pose (m : JsMath) : BodyAnimation := fun skel t =>
  let breath := m.sin t
  let spine1 := animateBone skel.spine { x := some (-0.1 + breath * 0.02) }
  let skel := { skel with spine := spine1 }
  let leftArm1 := animateBone skel.leftArm { z := some 0.5, x := some (-0.2) }
  let skel := { skel with leftArm := leftArm1 }
  let leftForeArm1 := animateBone skel.leftForeArm { x := some 1.5, y := some (-0.5) }
  let skel := { skel with leftForeArm := leftForeArm1 }
  let rightArm1 := animateBone skel.rightArm { z := some (-0.5), x := some (-0.2) }
  let skel := { skel with rightArm := rightArm1 }
  let rightForeArm1 := animateBone skel.rightForeArm { x := some 1.5, y := some 0.5 }
  let skel := { skel with rightForeArm := rightForeArm1 }
  let skel := { skel with head := animateBone skel.head { x := some (-0.1) } }
  skel

/-- Thinking_Pose embeds FULL_BODY_ANIMATIONS["Thinking_Pose"]. -/
def Thinking_Pose (_m : JsMath) : BodyAnimation := fun skel _t =>
  let rightArm1 := animateBone skel.rightArm { x := some 1.5, z := some (-0.2) }
  let skel := { skel with rightArm := rightArm1 }
  let rightForeArm1 := animateBone skel.rightForeArm { x := some 2.5, y := some 1.5 }
  let skel := { skel with rightForeArm := rightForeArm1 }
  let skel := { skel with rightHand := animateBone skel.rightHand { x := some 0.5 } }
  let leftArm1 := animateBone skel.leftArm { x := some 0.5, z := some 0.5 }
  let skel := { skel with leftArm := leftArm1 }
  let leftForeArm1 := animateBone skel.leftForeArm { x := some 1.5, y := some (-1.0) }
  let skel := { skel with leftForeArm := leftForeArm1 }
  let skel := { skel with head := animateBone skel.head { z := some 0.1, x := some 0.2 } }
  skel

/-- FULL_BODY_ANIMATIONS embeds the pose record of library.ts in key order. -/
def FULL_BODY_ANIMATIONS (m : JsMath) : List (Str × BodyAnimation) :=
  [(chars "Defiant_Flirty", Defiant_Flirty m),
   (chars "Power_Pose", Power_Pose m),
   (chars "Thinking_Pose", Thinking_Pose m)]

end library

/-- Jaw_Talk embeds BONE_ANIMATION_LIBRARY["Jaw_Talk"]: a smoothed step of
rotation.x toward a speech-driven target, with the fixed factor 0.3. -/
def Jaw_Talk (m : JsMath) : BoneAnimationFunc := fun tr t _delta ctx =>
  let freq : ℚ := if optIsSpeaking ctx then 12 else 0
  let amplitude : ℚ := if optIsSpeaking ctx then 0.15 else 0
  let targetX := m.sin (t * freq) * amplitude
  { tr with rotation :=
      { tr.rotation with x := tr.rotation.x + (targetX - tr.rotation.x) * 0.3 } }

/-- Jaw_Smile embeds BONE_ANIMATION_LIBRARY["Jaw_Smile"]. -/
def Jaw_Smile (_m : JsMath) : BoneAnimationFunc := fun tr _t _delta _ctx =>
  { tr with rotation := { tr.rotation with x := -0.05 } }

/-- Eye_Blink embeds BONE_ANIMATION_LIBRARY["Eye_Blink"]: a smoothed step of
scale.y toward a blink-phase target, with the fixed factor 0.5. -/
def Eye_Blink (_m : JsMath) : BoneAnimationFunc := fun tr t _delta _ctx =>
  let blinkCycle := jsMod t 4
  let targetScale : ℚ := if blinkCycle < 0.15 then 0.1 else 1.0
  { tr with scale :=
      { tr.scale with y := tr.scale.y + (targetScale - tr.scale.y) * 0.5 } }

/-- Eye_LookAt embeds BONE_ANIMATION_LIBRARY["Eye_LookAt"], whose body
performs no observable mutation. -/
def Eye_LookAt (_m : JsMath) : BoneAnimationFunc := fun tr _t _delta _ctx => tr

/-- Head_Nod embeds BONE_ANIMATION_LIBRARY["Head_Nod"]. -/
def Head_Nod (m : JsMath) : BoneAnimationFunc := fun tr t _delta _ctx =>
  { tr with rotation := { tr.rotation with x := m.sin (t * 2) * 0.3 } }

/-- Head_Shake embeds BONE_ANIMATION_LIBRARY["Head_Shake"]. -/
def Head_Shake (m : JsMath) : BoneAnimationFunc := fun tr t _delta _ctx =>
  { tr with rotation := { tr.rotation with y := m.sin (t * 4) * 0.4 } }

/-- Head_Tilt embeds BONE_ANIMATION_LIBRARY["Head_Tilt"]. -/
def Head_Tilt (m : JsMath) : BoneAnimationFunc := fun tr t _delta _ctx =>
  { tr with rotation := { tr.rotation with z := m.sin (t * 0.5) * 0.2 } }

/-- Head_Breathing embeds BONE_ANIMATION_LIBRARY["Head_Breathing"]. -/
def Head_Breathing (m : JsMath) : BoneAnimationFunc := fun tr t _delta _ctx =>
  let breathCycle := m.sin (t * 0.5)
  { tr with
      position := { tr.position with y := breathCycle * 0.01 }
      rotation := { tr.rotation with x := breathCycle * 0.02 } }

/-- Spine_Breathe embeds BONE_ANIMATION_LIBRARY["Spine_Breathe"]. -/
def Spine_Breathe (m : JsMath) : BoneAnimationFunc := fun tr t _delta _ctx =>
  let breath := m.sin (t * 0.5)
  { tr with
      scale := { tr.scale with x := 1 + breath * 0.03, z := 1 + breath * 0.03 }
      position := { tr.position with y := breath * 0.005 } }

/-- Chest_Puff embeds BONE_ANIMATION_LIBRARY["Chest_Puff"]. -/
def Chest_Puff (_m : JsMath) : BoneAnimationFunc := fun tr _t _delta _ctx =>
  { tr with
      rotation := { tr.rotation with x := -0.1 }
      scale := { tr.scale with x := 1.05 } }

/-- Arm_Wave embeds BONE_ANIMATION_LIBRARY["Arm_Wave"]. -/
def Arm_Wave (m : JsMath) : BoneAnimationFunc := fun tr t _delta _ctx =>
  { tr with rotation := { tr.rotation with z := m.sin (t * 4) * 0.5 + 0.5 } }

/-- Arm_Idle embeds BONE_ANIMATION_LIBRARY["Arm_Idle"]. -/
def Arm_Idle (m : JsMath) : BoneAnimationFunc := fun tr t _delta _ctx =>
  { tr with rotation := { tr.rotation with x := m.sin (t * 0.3) * 0.05 } }

/-- Hand_Gesture embeds BONE_ANIMATION_LIBRARY["Hand_Gesture"]. -/
def Hand_Gesture (m : JsMath) : BoneAnimationFunc := fun tr t _delta _ctx =>
  { tr with rotation :=
      { tr.rotation with x := m.sin (t * 3) * 0.2, z := m.cos (t * 2) * 0.15 } }

/-- Finger_Curl embeds BONE_ANIMATION_LIBRARY["Finger_Curl"]. -/
def Finger_Curl (_m : JsMath) : BoneAnimationFunc := fun tr _t _delta _ctx =>
  { tr with rotation := { tr.rotation with z := 1.2 } }

/-- Finger_Idle embeds BONE_ANIMATION_LIBRARY["Finger_Idle"]. -/
def Finger_Idle (m : JsMath) : BoneAnimationFunc := fun tr t _delta _ctx =>
  { tr with rotation :=
      { tr.rotation with z := m.sin (t * 1.5 + tr.position.x) * 0.1 } }

/-- Hip_Sway embeds BONE_ANIMATION_LIBRARY["Hip_Sway"]. -/
def Hip_Sway (m : JsMath) : BoneAnimationFunc := fun tr t _delta _ctx =>
  { tr with rotation := { tr.rotation with z := m.sin (t * 0.5) * 0.05 } }

/-- Reset embeds BONE_ANIMATION_LIBRARY["Reset"]: back to the bind pose. -/
def Reset (_m : JsMath) : BoneAnimationFunc := fun tr _t _delta _ctx =>
  { tr with rotation := ⟨0, 0, 0⟩, position := ⟨0, 0, 0⟩, scale := ⟨1, 1, 1⟩ }

/-- BONE_ANIMATION_LIBRARY embeds the per-bone animation record in key order. -/
def BONE_ANIMATION_LIBRARY (m : JsMath) : List (Str × BoneAnimationFunc) :=
  [(chars "Jaw_Talk", Jaw_Talk m),
   (chars "Jaw_Smile", Jaw_Smile m),
   (chars "Eye_Blink", Eye_Blink m),
   (chars "Eye_LookAt", Eye_LookAt m),
   (chars "Head_Nod", Head_Nod m),
   (chars "Head_Shake", Head_Shake m),
   (chars "Head_Tilt", Head_Tilt m),
   (chars "Head_Breathing", Head_Breathing m),
   (chars "Spine_Breathe", Spine_Breathe m),
   (chars "Chest_Puff", Chest_Puff m),
   (chars "Arm_Wave", Arm_Wave m),
   (chars "Arm_Idle", Arm_Idle m),
   (chars "Hand_Gesture", Hand_Gesture m),
   (chars "Finger_Curl", Finger_Curl m),
   (chars "Finger_Idle", Finger_Idle m),
   (chars "Hip_Sway", Hip_Sway m),
   (chars "Reset", Reset m)]

/-- BONE_ANIMATION_NAMES embeds Object.keys(BONE_ANIMATION_LIBRARY). -/
def BONE_ANIMATION_NAMES (m : JsMath) : List Str :=
  (BONE_ANIMATION_LIBRARY m).map Prod.fst

/-- specPatMatch is the specification-side entry predicate for pattern
search, phrased as the spec words it: the cache key or the raw display name
contains some candidate, comparing case-insensitively after trimming the
candidate of whitespace. -/
def specPatMatch (bones : List Bone) (pats : List Str) (e : Str × Nat) : Bool :=
  pats.any (fun p =>
    strIncludes (lowerStr e.1) (lowerStr (trimStr p)) ||
      (match bones.get? e.2 with
       | some b => strIncludes (lowerStr b.name) (lowerStr (trimStr p))
       | none => false))

/-- specFindByPatterns is the specification-side description of
findByPatterns: the earliest cache entry (insertion order) matching some
candidate, or the not-found sentinel. -/
def specFindByPatterns (bones : List Bone) (cache : CacheT) (pats : List Str) :
    Option Nat :=
  (cache.find? (specPatMatch bones pats)).map Prod.snd

/-- countKey counts the registrations stored under one key. -/
def countKey {α : Type} (m : List (Str × α)) (k : Str) : Nat :=
  (m.filter (fun e => e.1 = k)).length

/-- slotList lists the role slots of a library skeleton map in declaration
order, for stating slot-wise preservation facts. -/
def library.slotList (s : library.SkeletonMap) : List (Option Bone) :=
  [s.hips, s.spine, s.neck, s.head, s.leftArm, s.leftForeArm, s.leftHand,
   s.rightArm, s.rightForeArm, s.rightHand]

/-- boneShape projects the fields of a bone a full-body pose never writes:
name, uuid, position and scale. -/
def boneShape (b : Bone) : Str × Str × Vec3 × Vec3 :=
  (b.name, b.uuid, b.transform.position, b.transform.scale)

/-- t0 is the identity local transform used by the concrete test scenes. -/
def t0 : Transform := ⟨⟨0, 0, 0⟩, ⟨0, 0, 0⟩, ⟨1, 1, 1⟩⟩

/-- mkBoneNode builds a leaf scene node of type Bone. -/
def mkBoneNode (name uuid : String) : SceneNode :=
  SceneNode.node (chars "Bone") (chars name) (chars uuid) t0 []

/-- mkGroup builds a non-bone container node. -/
def mkGroup (name : String) (cs : List SceneNode) : SceneNode :=
  SceneNode.node (chars "Group") (chars name) (chars "g0") t0 cs

/-- sceneHead is a scene with a single joint named Head. -/
def sceneHead : SceneNode := mkGroup "Scene" [mkBoneNode "Head" "u1"]

/-- scenePriority has an earlier joint matching a later candidate and a
later joint matching an earlier candidate. -/
def scenePriority : SceneNode :=
  mkGroup "Scene" [mkBoneNode "TheSkull" "u1", mkBoneNode "TheHead" "u2"]

/-- sceneMixamo names its joints in the mixamorig convention. -/
def sceneMixamo : SceneNode :=
  mkGroup "Scene" [mkBoneNode "mixamorigNeck" "u1", mkBoneNode "mixamorigHead" "u2"]

/-- sceneBip names its joints in the bip001 convention. -/
def sceneBip : SceneNode :=
  mkGroup "Scene" [mkBoneNode "bip001_neck" "u1", mkBoneNode "bip001_head" "u2"]

/-- scenePlain matches no supported naming convention. -/
def scenePlain : SceneNode := mkGroup "Scene" [mkBoneNode "foo" "u1"]

/-- sceneEmpty has no joints at all. -/
def sceneEmpty : SceneNode := mkGroup "Scene" []

/-- sceneDup has two joints sharing one display name. -/
def sceneDup : SceneNode :=
  mkGroup "Scene" [mkBoneNode "Twin" "u1", mkBoneNode "Twin" "u2"]

/-- mId instantiates the abstract math primitives for concrete witnesses. -/
def mId : JsMath := ⟨fun x => x, fun x => x⟩

/-- fSetX is a concrete animation function writing rotation.x. -/
def fSetX (v : ℚ) : BoneAnimationFunc := fun tr _t _delta _ctx =>
  { tr with rotation := { tr.rotation with x := v } }

/-- sW is a partially populated skeleton map (head only) for witnesses. -/
def sW : library.SkeletonMap := { head := some ⟨chars "Head", chars "u1", t0⟩ }

section theorems

/-- animateBone applied twice with the same rotation record equals one
application: it assigns fixed values to the selected axes. -/
theorem animateBone_twice (b : Option Bone) (r : library.RotSpec) :
    library.animateBone (library.animateBone b r) r = library.animateBone b r := by
  cases b with
  | none => rfl
  | some b =>
    obtain ⟨rx, ry, rz⟩ := r
    cases rx <;> cases ry <;> cases rz <;> rfl

/-- animateBone never changes the name, uuid, position or scale of the
bone, and maps an absent bone to an absent bone. -/
theorem animateBone_shape (b : Option Bone) (r : library.RotSpec) :
    (library.animateBone b r).map boneShape = b.map boneShape := by
  cases b with
  | none => rfl
  | some b =>
    obtain ⟨rx, ry, rz⟩ := r
    cases rx <;> cases ry <;> cases rz <;> rfl

/-- animateBone preserves presence of the bone. -/
theorem animateBone_keeps (b : Option Bone) (r : library.RotSpec) :
    (library.animateBone b r).isSome = b.isSome := by
  cases b <;> rfl

/-- Defiant_Flirty satisfies the pose contract facts. -/
theorem Defiant_Flirty_contract (m : JsMath) (s : library.SkeletonMap) (t : ℚ) :
    library.Defiant_Flirty m (library.Defiant_Flirty m s t) t =
      library.Defiant_Flirty m s t ∧
    (library.slotList (library.Defiant_Flirty m s t)).map (Option.map boneShape) =
      (library.slotList s).map (Option.map boneShape) := by
  constructor
  · cases hh : s.hips <;>
      simp [library.Defiant_Flirty, hh, animateBone_twice, animateBone_keeps]
  · cases hh : s.hips <;>
      simp [library.Defiant_Flirty, library.slotList, hh, animateBone_shape]

/-- Power_Pose satisfies the pose contract facts. -/
theorem Power_Pose_contract (m : JsMath) (s : library.SkeletonMap) (t : ℚ) :
    library.Power_Pose m (library.Power_Pose m s t) t = library.Power_Pose m s t ∧
    (library.slotList (library.Power_Pose m s t)).map (Option.map boneShape) =
      (library.slotList s).map (Option.map boneShape) := by
  constructor
  · simp [library.Power_Pose, animateBone_twice]
  · simp [library.Power_Pose, library.slotList, animateBone_shape]

/-- Thinking_Pose satisfies the pose contract facts. -/
theorem Thinking_Pose_contract (m : JsMath) (s : library.SkeletonMap) (t : ℚ) :
    library.Thinking_Pose m (library.Thinking_Pose m s t) t =
      library.Thinking_Pose m s t ∧
    (library.slotList (library.Thinking_Pose m s t)).map (Option.map boneShape) =
      (library.slotList s).map (Option.map boneShape) := by
  constructor
  · simp [library.Thinking_Pose, animateBone_twice]
  · simp [library.Thinking_Pose, library.slotList, animateBone_shape]

/-- C8: every full-body pose function is idempotent and stateless (applying
it twice at the same time value equals applying it once), never fails on
absent role slots, and writes only rotations of populated slots: absent
slots stay absent and every slot keeps its name, uuid, position and scale. -/
theorem fullBody_idempotent_skip_absent (m : JsMath) (nm : Str)
    (f : library.BodyAnimation) (hf : (nm, f) ∈ library.FULL_BODY_ANIMATIONS m)
    (s : library.SkeletonMap) (t : ℚ) :
    f (f s t) t = f s t ∧
    (library.slotList (f s t)).map (Option.map boneShape) =
      (library.slotList s).map (Option.map boneShape) := by
  simp only [library.FULL_BODY_ANIMATIONS, List.mem_cons, List.not_mem_nil,
    or_false, Prod.mk.injEq] at hf
  rcases hf with ⟨-, rfl⟩ | ⟨-, rfl⟩ | ⟨-, rfl⟩
  · exact Defiant_Flirty_contract m s t
  · exact Power_Pose_contract m s t
  · exact Thinking_Pose_contract m s t

/-- C8 witness: the Power_Pose entry applied to a skeleton map whose only
populated slot is the head. -/
theorem fullBody_idempotent_skip_absent_wit :
    library.Power_Pose mId (library.Power_Pose mId sW 1) 1 =
      library.Power_Pose mId sW 1 ∧
    (library.slotList (library.Power_Pose mId sW 1)).map (Option.map boneShape) =
      (library.slotList sW).map (Option.map boneShape) :=
  fullBody_idempotent_skip_absent mId (chars "Power_Pose") (library.Power_Pose mId)
    (by simp [library.FULL_BODY_ANIMATIONS]) sW 1

/-- C9: the built-in smoothing animation functions Jaw_Talk and Eye_Blink
step with a fixed constant factor (0.3 and 0.5) that is not derived from
the frame delta: two invocations on the same transform with the same time
and context but different delta arguments produce identical results, so
the mutation is independent of delta and not frame-rate independent. -/
theorem smoothing_delta_independent (m : JsMath) (tr : Transform) (t d1 d2 : ℚ)
    (ctx : Option AnimationContext) :
    Jaw_Talk m tr t d1 ctx = Jaw_Talk m tr t d2 ctx ∧
    Eye_Blink m tr t d1 ctx = Eye_Blink m tr t d2 ctx :=
  ⟨rfl, rfl⟩

/-- C2: with exactly one registration whose target selector does not
resolve, update emits exactly one diagnostic and returns every local
transform unchanged; the registration table is not modified by update (the
controller value is untouched by construction), and the next update call
re-resolves and behaves identically. -/
theorem update_unresolved_diag (c : BoneAnimationController) (bones : List Bone)
    (t delta t2 delta2 : ℚ) (ctx ctx2 : Option AnimationContext)
    (id nm : Str) (f : BoneAnimationFunc)
    (hreg : c.activeAnimations = [(id, ⟨nm, f⟩)])
    (hmiss : findByPatterns bones c.cache [nm] = none) :
    update c bones t delta ctx = (bones, [⟨id, nm⟩]) ∧
    update c (update c bones t delta ctx).1 t2 delta2 ctx2 = (bones, [⟨id, nm⟩]) := by
  have key : ∀ (ta da : ℚ) (ca : Option AnimationContext),
      update c bones ta da ca = (bones, [⟨id, nm⟩]) := by
    intro ta da ca
    unfold update
    rw [hreg]
    simp [hmiss]
  refine ⟨key t delta ctx, ?_⟩
  rw [key t delta ctx]
  exact key t2 delta2 ctx2

/-- C2 witness: a controller over the Head scene with one registration
targeting skull, which resolves to nothing. -/
theorem update_unresolved_diag_wit :
    update ⟨rebuildCache (bonesOf sceneHead), [(chars "anim", ⟨chars "skull", fSetX 1⟩)]⟩
        (bonesOf sceneHead) 1 (1/60) none =
      (bonesOf sceneHead, [⟨chars "anim", chars "skull"⟩]) ∧
    update ⟨rebuildCache (bonesOf sceneHead), [(chars "anim", ⟨chars "skull", fSetX 1⟩)]⟩
        ((update ⟨rebuildCache (bonesOf sceneHead),
            [(chars "anim", ⟨chars "skull", fSetX 1⟩)]⟩
          (bonesOf sceneHead) 1 (1/60) none).1) 2 (2/60) none =
      (bonesOf sceneHead, [⟨chars "anim", chars "skull"⟩]) :=
  update_unresolved_diag _ _ 1 (1/60) 2 (2/60) none none _ _ _ rfl (by decide)

/-- C1 counterexample: for the one-joint Head scene, getAllBones returns the
joint twice (once per cache key), so it does not return every distinct
joint exactly once. -/
theorem getAllBones_duplicates_cex :
    (getAllBones (rebuildCache (bonesOf sceneHead))).filterMap
        (fun i => (bonesOf sceneHead).get? i) =
      [⟨chars "Head", chars "u1", t0⟩, ⟨chars "Head", chars "u1", t0⟩] ∧
    ¬ ((getAllBones (rebuildCache (bonesOf sceneHead))).filterMap
        (fun i => (bonesOf sceneHead).get? i)).count ⟨chars "Head", chars "u1", t0⟩ = 1 := by
  decide

/-- C10 counterexample: in a scene whose two joints share one display name,
the empty candidate returns the second-traversed joint, not the
first-traversed one: the shared lower-cased name key, which is the first
cache entry, was overwritten to reference the later joint. -/
theorem empty_pattern_first_joint_cex :
    findByPatterns (bonesOf sceneDup) (rebuildCache (bonesOf sceneDup)) [chars ""] = some 1 ∧
    findByPatterns (bonesOf sceneDup) (rebuildCache (bonesOf sceneDup)) [chars ""] ≠ some 0 := by
  decide

/-- C7: the SkeletonMap constructor resolves the head role to the correct
joint under the mixamorig convention and under the bip001 convention; with
neither convention the head slot is left absent (no failure), and roles
resolve independently: in the same scenes the hips role fails while head
and neck still resolve. -/
theorem skeletonMap_naming_conventions :
    (mkSkeletonMap sceneMixamo).head = some 1 ∧
    (bonesOf sceneMixamo).get? 1 = some ⟨chars "mixamorigHead", chars "u2", t0⟩ ∧
    (mkSkeletonMap sceneMixamo).neck = some 0 ∧
    (mkSkeletonMap sceneMixamo).hips = none ∧
    (mkSkeletonMap sceneBip).head = some 1 ∧
    (bonesOf sceneBip).get? 1 = some ⟨chars "bip001_head", chars "u2", t0⟩ ∧
    (mkSkeletonMap sceneBip).neck = some 0 ∧
    (mkSkeletonMap sceneBip).hips = none ∧
    (mkSkeletonMap scenePlain).head = none := by
  decide

/-- Setting a map key twice collapses to the second set: the first value is
discarded whether the key was fresh or already present. -/
theorem mapSet_mapSet {α : Type} (m : List (Str × α)) (k : Str) (v1 v2 : α) :
    mapSet (mapSet m k v1) k v2 = mapSet m k v2 := by
  by_cases h : m.any (fun e => e.1 = k)
  · have hcomp : ((fun e : Str × α => decide (e.1 = k)) ∘
        (fun e : Str × α => if e.1 = k then (k, v1) else e)) =
        (fun e : Str × α => decide (e.1 = k)) := by
      funext e
      by_cases he : e.1 = k <;> simp [he]
    have hmap : (m.map (fun e => if e.1 = k then (k, v1) else e)).any
        (fun e => e.1 = k) = true := by
      rw [List.any_map, hcomp]
      exact h
    simp only [mapSet, if_pos h, if_pos hmap, List.map_map]
    apply List.map_congr_left
    intro e _
    by_cases he : e.1 = k <;> simp [he]
  · have hall : ∀ e ∈ m, ¬ (e.1 = k) := by
      intro e he hek
      exact h (List.any_eq_true.mpr ⟨e, he, by simp [hek]⟩)
    have hmap : (m ++ [(k, v1)]).any (fun e => e.1 = k) = true := by
      rw [List.any_append]
      simp
    have h1 : ∀ (l : List (Str × α)), (∀ e ∈ l, ¬ (e.1 = k)) →
        l.map (fun e => if e.1 = k then (k, v2) else e) = l := by
      intro l hl
      induction l with
      | nil => rfl
      | cons a as ih =>
        have h2 := ih (fun e he => hl e (by simp [he]))
        simp [if_neg (hl a (by simp)), h2]
    simp only [mapSet, if_neg h, if_pos hmap, List.map_append]
    rw [h1 m hall]
    simp

/-- Setting a key leaves exactly one entry under that key when the map had
at most one. -/
theorem countKey_mapSet {α : Type} (m : List (Str × α)) (k : Str) (v : α)
    (h : countKey m k ≤ 1) : countKey (mapSet m k v) k = 1 := by
  by_cases hany : m.any (fun e => e.1 = k)
  · have hpos : 1 ≤ countKey m k := by
      obtain ⟨e, he, hek⟩ := List.any_eq_true.mp hany
      have hmem : e ∈ m.filter (fun e => e.1 = k) := List.mem_filter.mpr ⟨he, hek⟩
      have hne : m.filter (fun e => e.1 = k) ≠ [] := List.ne_nil_of_mem hmem
      have := List.length_pos.mpr hne
      simpa [countKey] using this
    have heq : countKey m k = 1 := le_antisymm h hpos
    have hcomp : ((fun e : Str × α => decide (e.1 = k)) ∘
        (fun e : Str × α => if e.1 = k then (k, v) else e)) =
        (fun e : Str × α => decide (e.1 = k)) := by
      funext e
      by_cases he : e.1 = k <;> simp [he]
    unfold mapSet
    rw [if_pos hany]
    unfold countKey
    rw [List.filter_map, hcomp, List.length_map]
    exact heq
  · have hzero : m.filter (fun e => e.1 = k) = [] := by
      rw [List.filter_eq_nil_iff]
      intro e he hek
      exact hany (List.any_eq_true.mpr ⟨e, he, hek⟩)
    unfold mapSet
    rw [if_neg hany]
    unfold countKey
    rw [List.filter_append, hzero]
    simp

/-- C4: registering twice under one identifier collapses to the second
registration: the controller states are equal, exactly one registration is
stored under the identifier, and update behaves as if only the second
(selector, function) pair had ever been registered. -/
theorem registerAnimation_last_write_wins (c : BoneAnimationController)
    (id n1 n2 : Str) (f1 f2 : BoneAnimationFunc) :
    registerAnimation (registerAnimation c id n1 f1) id n2 f2 =
      registerAnimation c id n2 f2 ∧
    (countKey c.activeAnimations id ≤ 1 →
      countKey (registerAnimation (registerAnimation c id n1 f1) id n2 f2).activeAnimations
        id = 1) ∧
    ∀ (bones : List Bone) (t delta : ℚ) (ctx : Option AnimationContext),
      update (registerAnimation (registerAnimation c id n1 f1) id n2 f2) bones t delta ctx =
        update (registerAnimation c id n2 f2) bones t delta ctx := by
  have hs : registerAnimation (registerAnimation c id n1 f1) id n2 f2 =
      registerAnimation c id n2 f2 := by
    simp [registerAnimation, mapSet_mapSet]
  refine ⟨hs, ?_, ?_⟩
  · intro h
    rw [hs]
    simp only [registerAnimation]
    exact countKey_mapSet _ _ _ h
  · intro bones t delta ctx
    rw [hs]

/-- C4 witness: a fresh controller over the Head scene, registering under X
twice. -/
theorem registerAnimation_last_write_wins_wit :
    registerAnimation (registerAnimation (mkController sceneHead)
        (chars "X") (chars "a") (fSetX 1)) (chars "X") (chars "b") (fSetX 2) =
      registerAnimation (mkController sceneHead) (chars "X") (chars "b") (fSetX 2) ∧
    countKey (registerAnimation (registerAnimation (mkController sceneHead)
        (chars "X") (chars "a") (fSetX 1))
        (chars "X") (chars "b") (fSetX 2)).activeAnimations (chars "X") = 1 ∧
    update (registerAnimation (registerAnimation (mkController sceneHead)
        (chars "X") (chars "a") (fSetX 1)) (chars "X") (chars "b") (fSetX 2))
        (bonesOf sceneHead) 1 (1/60) none =
      update (registerAnimation (mkController sceneHead) (chars "X") (chars "b") (fSetX 2))
        (bonesOf sceneHead) 1 (1/60) none := by
  obtain ⟨h1, h2, h3⟩ := registerAnimation_last_write_wins (mkController sceneHead)
    (chars "X") (chars "a") (chars "b") (fSetX 1) (fSetX 2)
  exact ⟨h1, h2 (by decide), h3 (bonesOf sceneHead) 1 (1/60) none⟩

/-- findInEntry only reads the referenced bone through its name. -/
theorem findInEntry_name_congr (bones2 bones : List Bone) (k : Str) (j : Nat)
    (hname : (bones2.get? j).map Bone.name = (bones.get? j).map Bone.name) :
    ∀ pats : List Str, findInEntry bones2 k j pats = findInEntry bones k j pats := by
  intro pats
  induction pats with
  | nil => rfl
  | cons p ps ih =>
    unfold findInEntry
    rw [ih]
    cases hb2 : bones2.get? j <;> cases hb : bones.get? j <;>
      rw [hb2, hb] at hname <;> simp at hname <;> simp [hname]

/-- Pattern resolution is unchanged by a transform-only write to a bone:
animation functions never touch names or identifiers, so per-frame
re-resolution sees the same keys. -/
theorem findByPatterns_set_transform (bones : List Bone) (i : Nat) (b : Bone)
    (tr : Transform) (hb : bones.get? i = some b) :
    ∀ (cache : CacheT) (pats : List Str),
      findByPatterns (bones.set i { b with transform := tr }) cache pats =
        findByPatterns bones cache pats := by
  intro cache pats
  induction cache with
  | nil => rfl
  | cons e rest ih =>
    obtain ⟨k, j⟩ := e
    unfold findByPatterns
    rw [ih]
    rw [findInEntry_name_congr]
    by_cases hij : i = j
    · subst hij
      have hlt : i < bones.length := by
        by_contra hc
        rw [List.get?_eq_none.mpr (le_of_not_lt hc)] at hb
        cases hb
      rw [List.get?_set_eq_of_lt _ hlt, hb]
      rfl
    · rw [List.get?_set_ne _ _ hij]

/-- C5: within one update call, registrations apply in insertion order of
the table: with two registrations both resolving to the same joint, the
final transform is the second (later-registered) function applied after the
first, so the later writes win on every field both touch, and no
diagnostic is emitted. -/
theorem update_order_last_write_wins (c : BoneAnimationController) (bones : List Bone)
    (t delta : ℚ) (ctx : Option AnimationContext) (id1 id2 n1 n2 : Str)
    (f1 f2 : BoneAnimationFunc) (i : Nat) (b : Bone)
    (hreg : c.activeAnimations = [(id1, ⟨n1, f1⟩), (id2, ⟨n2, f2⟩)])
    (h1 : findByPatterns bones c.cache [n1] = some i)
    (h2 : findByPatterns bones c.cache [n2] = some i)
    (hb : bones.get? i = some b) :
    update c bones t delta ctx =
      (bones.set i { b with transform := f2 (f1 b.transform t delta ctx) t delta ctx }, []) := by
  have hlt : i < bones.length := by
    by_contra hc
    rw [List.get?_eq_none.mpr (le_of_not_lt hc)] at hb
    cases hb
  unfold update
  rw [hreg]
  simp only [List.foldl, h1, hb]
  rw [findByPatterns_set_transform bones i b _ hb c.cache [n2], h2]
  simp only [List.get?_set_eq_of_lt _ hlt]
  rw [List.set_set]

/-- C5 witness: two registrations over the Head scene, resolving to the
same joint by name and by identifier; the second write to rotation.x wins. -/
theorem update_order_last_write_wins_wit :
    update ⟨rebuildCache (bonesOf sceneHead),
        [(chars "A", ⟨chars "head", fSetX 1⟩), (chars "B", ⟨chars "u1", fSetX 2⟩)]⟩
        (bonesOf sceneHead) 1 (1/60) none =
      ((bonesOf sceneHead).set 0
        { (⟨chars "Head", chars "u1", t0⟩ : Bone) with
            transform := fSetX 2 (fSetX 1 t0 1 (1/60) none) 1 (1/60) none }, []) :=
  update_order_last_write_wins _ (bonesOf sceneHead) 1 (1/60) none
    (chars "A") (chars "B") (chars "head") (chars "u1") (fSetX 1) (fSetX 2) 0
    ⟨chars "Head", chars "u1", t0⟩ rfl (by decide) (by decide) (by decide)

/-- Characters at or above code point 65 are not whitespace. -/
theorem ws_false_of_ge (d : Char) (hd : 65 ≤ d.toNat) : d.isWhitespace = false := by
  have h1 : d ≠ ' ' := fun e => by rw [e] at hd; exact absurd hd (by decide)
  have h2 : d ≠ '\t' := fun e => by rw [e] at hd; exact absurd hd (by decide)
  have h3 : d ≠ '\r' := fun e => by rw [e] at hd; exact absurd hd (by decide)
  have h4 : d ≠ '\n' := fun e => by rw [e] at hd; exact absurd hd (by decide)
  simp [Char.isWhitespace, h1, h2, h3, h4]

/-- Packing a valid code point round-trips through toNat. -/
theorem toNat_ofNat_valid (n : Nat) (hv : n.isValidChar) : (Char.ofNat n).toNat = n := by
  unfold Char.ofNat
  rw [dif_pos hv]
  rfl

/-- Lower-casing never changes whether a character is whitespace. -/
theorem toLower_ws (c : Char) : (Char.toLower c).isWhitespace = c.isWhitespace := by
  by_cases h : 65 ≤ c.toNat ∧ c.toNat ≤ 90
  · have hv : (c.toNat + 32).isValidChar := Or.inl (by omega)
    have hlow : (Char.ofNat (c.toNat + 32)).toNat = c.toNat + 32 := toNat_ofNat_valid _ hv
    have hL : Char.toLower c = Char.ofNat (c.toNat + 32) := by
      unfold Char.toLower
      rw [if_pos]
      exact ⟨h.1, h.2⟩
    rw [hL, ws_false_of_ge _ (by omega), ws_false_of_ge _ (by omega)]
  · have hL : Char.toLower c = c := by
      unfold Char.toLower
      rw [if_neg]
      exact h
    rw [hL]

/-- Trimming after lower-casing equals lower-casing after trimming: the
source lower-cases the candidate before trimming, the spec trims first. -/
theorem trimStr_lowerStr (s : Str) : trimStr (lowerStr s) = lowerStr (trimStr s) := by
  have hcomp : (Char.isWhitespace ∘ Char.toLower) = Char.isWhitespace := by
    funext c
    exact toLower_ws c
  unfold trimStr lowerStr
  rw [List.dropWhile_map, hcomp, ← List.map_reverse, List.dropWhile_map, hcomp,
    ← List.map_reverse]

/-- The early-return inner loop of findByPatterns over one cache entry is
the any-combinator over the candidates. -/
theorem findInEntry_eq_any (bones : List Bone) (k : Str) (i : Nat) (pats : List Str) :
    findInEntry bones k i pats =
      pats.any (fun p => patHit k p ||
        (match bones.get? i with | some b => patHit b.name p | none => false)) := by
  induction pats with
  | nil => rfl
  | cons p ps ih =>
    unfold findInEntry
    by_cases h1 : patHit k p <;>
      by_cases h2 : (match bones.get? i with
        | some b => patHit b.name p
        | none => false) <;>
      simp [h1, h2, ih]

/-- The source loop of findByPatterns equals the specification-side
first-matching-entry search. -/
theorem findByPatterns_eq_spec (bones : List Bone) (cache : CacheT) (pats : List Str) :
    findByPatterns bones cache pats = specFindByPatterns bones cache pats := by
  induction cache with
  | nil => rfl
  | cons e rest ih =>
    obtain ⟨k, j⟩ := e
    have hmatch : (pats.any fun p => patHit k p ||
        (match bones.get? j with | some b => patHit b.name p | none => false)) =
        specPatMatch bones pats (k, j) := by
      unfold specPatMatch patHit
      congr 1
      funext p
      rw [trimStr_lowerStr]
    unfold findByPatterns specFindByPatterns
    rw [findInEntry_eq_any, hmatch]
    cases hsp : specPatMatch bones pats (k, j) with
    | false => simp [hsp, List.find?_cons_of_neg, ih, specFindByPatterns]
    | true => simp [hsp, List.find?_cons_of_pos]

/-- C3: findByPatterns returns the joint of the earliest cache entry (cache
insertion order) whose key or raw display name contains some candidate,
comparing case-insensitively after trimming the candidate, and the
not-found sentinel when no entry matches; concretely, head-or-skull finds
the joint named Head, and candidate priority is not honored across cache
entries: an earlier-traversed joint matching the later candidate (skull)
beats a later-traversed joint matching the earlier candidate (head). -/
theorem findByPatterns_first_entry_spec :
    (∀ (bones : List Bone) (cache : CacheT) (pats : List Str),
      findByPatterns bones cache pats = specFindByPatterns bones cache pats) ∧
    findByPatterns (bonesOf sceneHead) (rebuildCache (bonesOf sceneHead))
      [chars "head", chars "skull"] = some 0 ∧
    (bonesOf sceneHead).get? 0 = some ⟨chars "Head", chars "u1", t0⟩ ∧
    findByPatterns (bonesOf scenePriority) (rebuildCache (bonesOf scenePriority))
      [chars "head", chars "skull"] = some 0 ∧
    (bonesOf scenePriority).get? 0 = some ⟨chars "TheSkull", chars "u1", t0⟩ ∧
    findByPatterns (bonesOf sceneHead) (rebuildCache (bonesOf sceneHead))
      [chars "absent"] = none :=
  ⟨fun bones cache pats => findByPatterns_eq_spec bones cache pats,
   by decide, by decide, by decide, by decide, by decide⟩


/-- Replacing the value under a key rewrites what a lookup of that key finds. -/
theorem find?_key_map_hit {α : Type} (m : List (Str × α)) (k : Str) (v : α) :
    (m.map (fun e => if e.1 = k then (k, v) else e)).find? (fun e => e.1 = k) =
      (m.find? (fun e => e.1 = k)).map (fun _ => (k, v)) := by
  induction m with
  | nil => rfl
  | cons a as ih =>
    by_cases ha : a.1 = k
    · simp [List.find?, ha]
    · simp [List.find?, ha, ih]

/-- Appending a fresh entry is what a lookup of its key finds when the key was absent. -/
theorem find?_key_append_miss {α : Type} (m : List (Str × α)) (k : Str) (v : α)
    (h : ∀ e ∈ m, ¬ (e.1 = k)) :
    (m ++ [(k, v)]).find? (fun e => e.1 = k) = some (k, v) := by
  induction m with
  | nil => simp [List.find?]
  | cons a as ih =>
    have ha : ¬ (a.1 = k) := h a (by simp)
    simp only [List.cons_append, List.find?, decide_eq_true_eq]
    rw [decide_eq_false ha]
    exact ih (fun e he => h e (by simp [he]))

/-- Replacing the value under one key leaves lookups of other keys unchanged. -/
theorem find?_key_map_ne {α : Type} (m : List (Str × α)) (k : Str) (v : α) (k2 : Str)
    (h : ¬ (k2 = k)) :
    (m.map (fun e => if e.1 = k then (k, v) else e)).find? (fun e => e.1 = k2) =
      m.find? (fun e => e.1 = k2) := by
  induction m with
  | nil => rfl
  | cons a as ih =>
    simp only [List.map_cons]
    by_cases ha : a.1 = k
    · have h2 : ¬ (a.1 = k2) := by
        rw [ha]
        exact fun e => h e.symm
      rw [if_pos ha]
      simp only [List.find?]
      rw [decide_eq_false (fun e => h (e.symm) : ¬ ((k : Str) = k2)),
        decide_eq_false h2]
      exact ih
    · rw [if_neg ha]
      simp only [List.find?]
      cases hd : decide (a.1 = k2)
      · exact ih
      · rfl

/-- Appending an entry leaves lookups of other keys unchanged. -/
theorem find?_key_append_ne {α : Type} (m : List (Str × α)) (k : Str) (v : α) (k2 : Str)
    (h : ¬ (k2 = k)) :
    (m ++ [(k, v)]).find? (fun e => e.1 = k2) = m.find? (fun e => e.1 = k2) := by
  induction m with
  | nil =>
    have h1 : ¬ ((k : Str) = k2) := fun e => h e.symm
    simp [List.find?, h1]
  | cons a as ih =>
    by_cases ha : a.1 = k2
    · simp [List.find?, ha]
    · simp [List.find?, ha, ih]

/-- Map.get after Map.set of the same key returns the new value. -/
theorem mapGet_mapSet_self {α : Type} (m : List (Str × α)) (k : Str) (v : α) :
    mapGet (mapSet m k v) k = some v := by
  unfold mapSet mapGet
  by_cases h : m.any (fun e => e.1 = k)
  · rw [if_pos h, find?_key_map_hit]
    rcases List.any_eq_true.mp h with ⟨e, he, hek⟩
    have : (m.find? (fun e => e.1 = k)).isSome := by
      rw [List.find?_isSome]
      exact ⟨e, he, hek⟩
    cases hf : m.find? (fun e => e.1 = k) with
    | none => rw [hf] at this; cases this
    | some e2 => simp
  · rw [if_neg h]
    rw [find?_key_append_miss]
    · rfl
    · intro e he hek
      exact h (List.any_eq_true.mpr ⟨e, he, by simp [hek]⟩)

/-- Map.get after Map.set of a different key is unchanged. -/
theorem mapGet_mapSet_ne {α : Type} (m : List (Str × α)) (k : Str) (v : α) (k2 : Str)
    (h : ¬ (k2 = k)) : mapGet (mapSet m k v) k2 = mapGet m k2 := by
  unfold mapSet mapGet
  by_cases hany : m.any (fun e => e.1 = k)
  · rw [if_pos hany, find?_key_map_ne _ _ _ _ h]
  · rw [if_neg hany, find?_key_append_ne _ _ _ _ h]

/-- Folding set operations with pairwise fresh keys just appends the entries. -/
theorem foldl_mapSet_fresh {α : Type} :
    ∀ (ops : List (Str × α)) (m : List (Str × α)),
      ((m ++ ops).map Prod.fst).Nodup →
      ops.foldl (fun acc e => mapSet acc e.1 e.2) m = m ++ ops := by
  intro ops
  induction ops with
  | nil =>
    intro m _
    simp
  | cons e rest ih =>
    intro m h
    have hnotin : ¬ m.any (fun x => x.1 = e.1) := by
      intro hx
      rcases List.any_eq_true.mp hx with ⟨x, hxm, hxk⟩
      rw [List.map_append] at h
      rcases List.nodup_append.mp h with ⟨h1, h2, hdisj⟩
      have hx1 : x.1 ∈ m.map Prod.fst := List.mem_map.mpr ⟨x, hxm, rfl⟩
      have hxe : x.1 = e.1 := of_decide_eq_true hxk
      exact hdisj hx1 (by
        rw [hxe]
        exact List.mem_map.mpr ⟨e, List.mem_cons_self e rest, rfl⟩)
    have hset : mapSet m e.1 e.2 = m ++ [e] := by
      unfold mapSet
      rw [if_neg hnotin]
    rw [List.foldl_cons, hset]
    rw [show m ++ e :: rest = (m ++ [e]) ++ rest by simp]
    apply ih
    rw [show (m ++ [e]) ++ rest = m ++ e :: rest by simp]
    exact h

/-- Dereferencing the cache-operation values yields each traversed bone twice. -/
theorem cacheOps_values_deref (bones : List Bone) :
    ∀ (rest : List Bone) (i : Nat),
      (∀ k, k < rest.length → bones.get? (i + k) = rest.get? k) →
      ((cacheOps i rest).map Prod.snd).filterMap (fun j => bones.get? j) =
        rest.flatMap (fun b => [b, b]) := by
  intro rest
  induction rest with
  | nil =>
    intro i _
    rfl
  | cons b rs ih =>
    intro i h
    have h0 : bones.get? i = some b := by
      have := h 0 (by simp)
      simpa using this
    simp only [cacheOps, List.map_cons, List.filterMap_cons, h0, List.flatMap_cons]
    rw [ih (i + 1)]
    · rfl
    · intro k hk
      have hk1 := h (k + 1) (by simpa using Nat.succ_lt_succ hk)
      rw [show i + (k + 1) = i + 1 + k by omega] at hk1
      simpa using hk1

/-- C1 amended: getAllBones returns one value per cache key in insertion order, so with pairwise distinct cache keys every joint appears exactly twice (name key and identifier key), and an empty scene yields an empty collection. -/
theorem getAllBones_per_cache_key (scene : SceneNode)
    (h : ((cacheOps 0 (bonesOf scene)).map Prod.fst).Nodup) :
    (getAllBones (rebuildCache (bonesOf scene))).filterMap
        (fun j => (bonesOf scene).get? j) =
      (bonesOf scene).flatMap (fun b => [b, b]) ∧
    (bonesOf scene = [] → getAllBones (rebuildCache (bonesOf scene)) = []) := by
  constructor
  · unfold getAllBones rebuildCache
    rw [foldl_mapSet_fresh _ [] (by simpa using h), List.nil_append]
    exact cacheOps_values_deref (bonesOf scene) (bonesOf scene) 0 (fun k _ => by simp)
  · intro he
    rw [he]
    rfl

/-- C1 witness: the two-joint mixamorig scene has distinct cache keys. -/
theorem getAllBones_per_cache_key_wit :
    (getAllBones (rebuildCache (bonesOf sceneMixamo))).filterMap
        (fun j => (bonesOf sceneMixamo).get? j) =
      (bonesOf sceneMixamo).flatMap (fun b => [b, b]) ∧
    (bonesOf sceneMixamo = [] → getAllBones (rebuildCache (bonesOf sceneMixamo)) = []) :=
  getAllBones_per_cache_key sceneMixamo (by decide)


/-- Every string includes the empty string. -/
theorem strIncludes_nil (hay : Str) : strIncludes hay [] = true := by
  cases hay <;> rfl

/-- Every cache operation key is the lowered name or the identifier of a traversed bone. -/
theorem cacheOps_mem (e : Str × Nat) :
    ∀ (rest : List Bone) (i : Nat), e ∈ cacheOps i rest →
      ∃ bj ∈ rest, e.1 = lowerStr bj.name ∨ e.1 = bj.uuid := by
  intro rest
  induction rest with
  | nil =>
    intro i h
    cases h
  | cons b rs ih =>
    intro i h
    rcases List.mem_cons.mp h with rfl | h2
    · exact ⟨b, by simp, Or.inl rfl⟩
    · rcases List.mem_cons.mp h2 with rfl | h3
      · exact ⟨b, by simp, Or.inr rfl⟩
      · rcases ih (i + 1) h3 with ⟨bj, hbj, hk⟩
        exact ⟨bj, by simp [hbj], hk⟩

/-- Set operations on keys other than the head key keep the head entry first and intact. -/
theorem foldl_mapSet_head (ops : List (Str × Nat)) :
    ∀ (m : CacheT) (k0 : Str) (v0 : Nat),
      (∀ e ∈ ops, e.1 ≠ k0) →
      ∃ tl, ops.foldl (fun acc e => mapSet acc e.1 e.2) ((k0, v0) :: m) =
        (k0, v0) :: tl := by
  induction ops with
  | nil =>
    intro m k0 v0 _
    exact ⟨m, rfl⟩
  | cons e rest ih =>
    intro m k0 v0 h
    have he : e.1 ≠ k0 := h e (by simp)
    have hstep : ∃ m2, mapSet ((k0, v0) :: m) e.1 e.2 = (k0, v0) :: m2 := by
      unfold mapSet
      by_cases hany : ((k0, v0) :: m).any (fun x => x.1 = e.1)
      · rw [if_pos hany]
        refine ⟨m.map (fun x => if x.1 = e.1 then (e.1, e.2) else x), ?_⟩
        simp only [List.map_cons]
        rw [if_neg (show ¬ (((k0, v0) : Str × Nat).1 = e.1) from fun hk => he hk.symm)]
      · rw [if_neg hany]
        exact ⟨m ++ [(e.1, e.2)], by simp⟩
    rcases hstep with ⟨m2, hm2⟩
    rw [List.foldl_cons, hm2]
    exact ih m2 k0 v0 (fun x hx => h x (by simp [hx]))

/-- With no later bone colliding with the first bone key, an all-whitespace candidate resolves to the first traversed bone. -/
theorem empty_pattern_first_aux (b0 : Bone) (rest : List Bone) (p : Str)
    (hname : ∀ bj ∈ rest, lowerStr bj.name ≠ lowerStr b0.name)
    (huuid : ∀ bj ∈ b0 :: rest, bj.uuid ≠ lowerStr b0.name)
    (htrim : trimStr (lowerStr p) = []) :
    findByPatterns (b0 :: rest) (rebuildCache (b0 :: rest)) [p] = some 0 := by
  have hu0 : b0.uuid ≠ lowerStr b0.name := huuid b0 (by simp)
  have hset1 : mapSet ([] : CacheT) (lowerStr b0.name) 0 = [(lowerStr b0.name, 0)] := by
    simp [mapSet]
  have hset2 : mapSet [(lowerStr b0.name, 0)] b0.uuid 0 =
      [(lowerStr b0.name, 0), (b0.uuid, 0)] := by
    unfold mapSet
    rw [if_neg]
    · rfl
    · simp only [List.any_cons, List.any_nil, Bool.or_false]
      simp only [decide_eq_true_eq]
      exact fun hk => hu0 hk.symm
  have hfresh : ∀ e ∈ cacheOps 1 rest, e.1 ≠ lowerStr b0.name := by
    intro e he
    rcases cacheOps_mem e rest 1 he with ⟨bj, hbj, hk | hk⟩
    · rw [hk]
      exact hname bj hbj
    · rw [hk]
      exact huuid bj (by simp [hbj])
  have hcache : ∃ tl, rebuildCache (b0 :: rest) = (lowerStr b0.name, 0) :: tl := by
    unfold rebuildCache
    show ∃ tl, ((lowerStr b0.name, 0) :: (b0.uuid, 0) :: cacheOps 1 rest).foldl
      (fun m e => mapSet m e.1 e.2) [] = _
    rw [List.foldl_cons, List.foldl_cons, hset1, hset2]
    exact foldl_mapSet_head (cacheOps 1 rest) [(b0.uuid, 0)] (lowerStr b0.name) 0 hfresh
  rcases hcache with ⟨tl, htl⟩
  rw [htl]
  unfold findByPatterns
  rw [if_pos]
  unfold findInEntry
  rw [if_pos]
  unfold patHit
  rw [htrim]
  exact strIncludes_nil _

/-- C10 amended: a candidate that trims to the empty string matches the first cache entry, so findByPatterns returns the first-traversed joint provided no later joint collides with its lower-cased name key (instead of the not-found sentinel), and a controller registration with that selector is applied each frame to that joint with no diagnostic. -/
theorem empty_pattern_first_joint (scene : SceneNode) (p : Str) (b0 : Bone)
    (h0 : (bonesOf scene).get? 0 = some b0)
    (hname : ∀ bj ∈ (bonesOf scene).drop 1, lowerStr bj.name ≠ lowerStr b0.name)
    (huuid : ∀ bj ∈ bonesOf scene, bj.uuid ≠ lowerStr b0.name)
    (htrim : trimStr (lowerStr p) = [])
    (id : Str) (f : BoneAnimationFunc) (t delta : ℚ) (ctx : Option AnimationContext) :
    findByPatterns (bonesOf scene) (rebuildCache (bonesOf scene)) [p] = some 0 ∧
    update ⟨rebuildCache (bonesOf scene), [(id, ⟨p, f⟩)]⟩ (bonesOf scene) t delta ctx =
      ((bonesOf scene).set 0 { b0 with transform := f b0.transform t delta ctx }, []) := by
  have hb : bonesOf scene = b0 :: (bonesOf scene).drop 1 := by
    cases hbs : bonesOf scene with
    | nil =>
      rw [hbs] at h0
      cases h0
    | cons hd tl =>
      rw [hbs] at h0
      have : hd = b0 := by
        simpa using h0
      simp [this]
  have hfind : findByPatterns (bonesOf scene) (rebuildCache (bonesOf scene)) [p] = some 0 := by
    rw [hb] at hname huuid ⊢
    simp only [List.drop_succ_cons, List.drop_zero] at hname
    exact empty_pattern_first_aux b0 _ p hname huuid htrim
  refine ⟨hfind, ?_⟩
  unfold update
  simp only [List.foldl, hfind, h0]

/-- C10 witness: the mixamorig scene with an all-whitespace selector. -/
theorem empty_pattern_first_joint_wit :
    findByPatterns (bonesOf sceneMixamo) (rebuildCache (bonesOf sceneMixamo))
      [chars "  "] = some 0 ∧
    update ⟨rebuildCache (bonesOf sceneMixamo), [(chars "E", ⟨chars "  ", fSetX 3⟩)]⟩
        (bonesOf sceneMixamo) 1 (1/60) none =
      ((bonesOf sceneMixamo).set 0
        { (⟨chars "mixamorigNeck", chars "u1", t0⟩ : Bone) with
            transform := fSetX 3 t0 1 (1/60) none }, []) :=
  empty_pattern_first_joint sceneMixamo (chars "  ")
    ⟨chars "mixamorigNeck", chars "u1", t0⟩
    (by decide) (by decide) (by decide) (by decide)
    (chars "E") (fSetX 3) 1 (1/60) none



/-- Cache operations of an appended traversal split with shifted indices. -/
theorem cacheOps_append (bs1 : List Bone) :
    ∀ (bs2 : List Bone) (i : Nat),
      cacheOps i (bs1 ++ bs2) = cacheOps i bs1 ++ cacheOps (i + bs1.length) bs2 := by
  induction bs1 with
  | nil =>
    intro bs2 i
    simp [cacheOps]
  | cons b rs ih =>
    intro bs2 i
    simp only [List.cons_append, cacheOps, List.length_cons, List.append_eq]
    rw [ih bs2 (i + 1)]
    rw [show i + 1 + rs.length = i + (rs.length + 1) by omega]

/-- Rebuilding after appending one bone is two set operations on the smaller cache. -/
theorem rebuildCache_append_single (bs : List Bone) (b : Bone) :
    rebuildCache (bs ++ [b]) =
      mapSet (mapSet (rebuildCache bs) (lowerStr b.name) bs.length) b.uuid bs.length := by
  unfold rebuildCache
  rw [cacheOps_append, List.foldl_append]
  simp [cacheOps]

/-- Lookup in the extended cache: the appended bone owns its identifier key and (re)takes its lower-cased name key; other keys are unchanged. -/
theorem mapGet_rebuild_append (bs : List Bone) (b : Bone) (k : Str) :
    mapGet (rebuildCache (bs ++ [b])) k =
      if b.uuid = k then some bs.length
      else if lowerStr b.name = k then some bs.length
      else mapGet (rebuildCache bs) k := by
  rw [rebuildCache_append_single]
  by_cases h1 : b.uuid = k
  · rw [if_pos h1]
    subst h1
    exact mapGet_mapSet_self _ _ _
  · rw [if_neg h1, mapGet_mapSet_ne _ _ _ _ (fun e => h1 e.symm)]
    by_cases h2 : lowerStr b.name = k
    · rw [if_pos h2]
      subst h2
      exact mapGet_mapSet_self _ _ _
    · rw [if_neg h2, mapGet_mapSet_ne _ _ _ _ (fun e => h2 e.symm)]

/-- Cache invariant over the traversal list: with globally unique identifiers that no lower-cased name collides with, every bone is reachable under its identifier key, and the lower-cased name key of every bone references the last traversed bone sharing that name. -/
theorem cacheInvAux : ∀ (bones : List Bone),
    (bones.map Bone.uuid).Nodup →
    (∀ b1 ∈ bones, ∀ b2 ∈ bones, lowerStr b1.name ≠ b2.uuid) →
    ((∀ i b, bones.get? i = some b → mapGet (rebuildCache bones) b.uuid = some i) ∧
     (∀ i b, bones.get? i = some b →
       ∃ j bj, i ≤ j ∧ bones.get? j = some bj ∧
         lowerStr bj.name = lowerStr b.name ∧
         mapGet (rebuildCache bones) (lowerStr b.name) = some j ∧
         ∀ j2 b2, j < j2 → bones.get? j2 = some b2 →
           lowerStr b2.name ≠ lowerStr b.name)) := by
  intro bones
  induction bones using List.reverseRecOn with
  | nil =>
    intro _ _
    constructor
    · intro i b hib
      simp at hib
    · intro i b hib
      simp at hib
  | append_singleton bs b ih =>
    intro hu hnu
    have hu2 : (bs.map Bone.uuid).Nodup := by
      rw [List.map_append] at hu
      exact (List.nodup_append.mp hu).1
    have hbu : b.uuid ∉ bs.map Bone.uuid := by
      rw [List.map_append] at hu
      have hdisj := (List.nodup_append.mp hu).2.2
      intro hmem
      exact hdisj hmem (by simp)
    have hnu2 : ∀ b1 ∈ bs, ∀ b2 ∈ bs, lowerStr b1.name ≠ b2.uuid :=
      fun b1 h1 b2 h2 => hnu b1 (by simp [h1]) b2 (by simp [h2])
    obtain ⟨ihA, ihB⟩ := ih hu2 hnu2
    have hget_lt : ∀ i, i < bs.length → (bs ++ [b]).get? i = bs.get? i :=
      fun i hi => List.get?_append hi
    have hget_len : (bs ++ [b]).get? bs.length = some b := by
      rw [List.get?_append_right (le_refl _)]
      simp
    have hget_gt : ∀ i, bs.length < i → (bs ++ [b]).get? i = none := by
      intro i hi
      rw [List.get?_eq_none]
      simp only [List.length_append, List.length_singleton]
      omega
    constructor
    · intro i b2 hib
      have hi1 : i < bs.length + 1 := by
        by_contra hc
        rw [hget_gt i (by omega)] at hib
        cases hib
      rw [mapGet_rebuild_append]
      rcases Nat.lt_or_ge i bs.length with hlt | hge
      · rw [hget_lt i hlt] at hib
        have hbmem : b2 ∈ bs := List.get?_mem hib
        have hne1 : ¬ (b.uuid = b2.uuid) := by
          intro he
          exact hbu (he ▸ List.mem_map.mpr ⟨b2, hbmem, rfl⟩)
        have hne2 : ¬ (lowerStr b.name = b2.uuid) :=
          hnu b (by simp) b2 (by simp [hbmem])
        rw [if_neg hne1, if_neg hne2]
        exact ihA i b2 hib
      · have hieq : i = bs.length := by omega
        subst hieq
        rw [hget_len] at hib
        injection hib with hb2
        subst hb2
        rw [if_pos rfl]
    · intro i b2 hib
      have hi1 : i < bs.length + 1 := by
        by_contra hc
        rw [hget_gt i (by omega)] at hib
        cases hib
      rcases Nat.lt_or_ge i bs.length with hlt | hge
      · rw [hget_lt i hlt] at hib
        have hbmem : b2 ∈ bs := List.get?_mem hib
        by_cases hshare : lowerStr b.name = lowerStr b2.name
        · refine ⟨bs.length, b, by omega, hget_len, hshare, ?_, ?_⟩
          · rw [mapGet_rebuild_append]
            have hne1 : ¬ (b.uuid = lowerStr b2.name) :=
              fun e => (hnu b2 (by simp [hbmem]) b (by simp)) e.symm
            rw [if_neg hne1, if_pos hshare]
          · intro j2 c2 hj2 hjb2
            rw [hget_gt j2 hj2] at hjb2
            cases hjb2
        · obtain ⟨j, bj, hle, hj, hnameeq, hget, hnolater⟩ := ihB i b2 hib
          have hjlt : j < bs.length := by
            by_contra hc
            rw [List.get?_eq_none.mpr (by omega)] at hj
            cases hj
          refine ⟨j, bj, hle, ?_, hnameeq, ?_, ?_⟩
          · rw [hget_lt j hjlt]
            exact hj
          · rw [mapGet_rebuild_append]
            have hne1 : ¬ (b.uuid = lowerStr b2.name) :=
              fun e => (hnu b2 (by simp [hbmem]) b (by simp)) e.symm
            rw [if_neg hne1, if_neg hshare]
            exact hget
          · intro j2 c2 hj2 hjb2
            rcases Nat.lt_or_ge j2 bs.length with h2lt | h2ge
            · rw [hget_lt j2 h2lt] at hjb2
              exact hnolater j2 c2 hj2 hjb2
            · rcases Nat.eq_or_lt_of_le h2ge with heq | hgt
              · rw [← heq, hget_len] at hjb2
                injection hjb2 with hc2
                subst hc2
                exact hshare
              · rw [hget_gt j2 hgt] at hjb2
                cases hjb2
      · have hieq : i = bs.length := by omega
        subst hieq
        rw [hget_len] at hib
        injection hib with hb2
        subst hb2
        refine ⟨bs.length, b, le_refl _, hget_len, rfl, ?_, ?_⟩
        · rw [mapGet_rebuild_append]
          have hne1 : ¬ (b.uuid = lowerStr b.name) :=
            fun e => (hnu b (by simp) b (by simp)) e.symm
          rw [if_neg hne1, if_pos rfl]
        · intro j2 c2 hj2 hjb2
          rw [hget_gt j2 hj2] at hjb2
          cases hjb2

/-- C6: after construction or rebuildCache, every traversed bone of the scene has an identifier-keyed entry mapping to itself (identifier entries never collide), and its lower-cased name key references the latest-visited bone with that lower-cased name, so on a shared name the later bone silently owns the key. -/
theorem rebuildCache_entries_invariant (scene : SceneNode)
    (hu : ((bonesOf scene).map Bone.uuid).Nodup)
    (hnu : ∀ b1 ∈ bonesOf scene, ∀ b2 ∈ bonesOf scene, lowerStr b1.name ≠ b2.uuid) :
    (∀ i b, (bonesOf scene).get? i = some b →
      mapGet (rebuildCache (bonesOf scene)) b.uuid = some i) ∧
    (∀ i b, (bonesOf scene).get? i = some b →
      ∃ j bj, i ≤ j ∧ (bonesOf scene).get? j = some bj ∧
        lowerStr bj.name = lowerStr b.name ∧
        mapGet (rebuildCache (bonesOf scene)) (lowerStr b.name) = some j ∧
        ∀ j2 b2, j < j2 → (bonesOf scene).get? j2 = some b2 →
          lowerStr b2.name ≠ lowerStr b.name) :=
  cacheInvAux (bonesOf scene) hu hnu

/-- C6 witness: the two-joint scene with a shared display name. -/
theorem rebuildCache_entries_invariant_wit :
    (∀ i b, (bonesOf sceneDup).get? i = some b →
      mapGet (rebuildCache (bonesOf sceneDup)) b.uuid = some i) ∧
    (∀ i b, (bonesOf sceneDup).get? i = some b →
      ∃ j bj, i ≤ j ∧ (bonesOf sceneDup).get? j = some bj ∧
        lowerStr bj.name = lowerStr b.name ∧
        mapGet (rebuildCache (bonesOf sceneDup)) (lowerStr b.name) = some j ∧
        ∀ j2 b2, j < j2 → (bonesOf sceneDup).get? j2 = some b2 →
          lowerStr b2.name ≠ lowerStr b.name) :=
  rebuildCache_entries_invariant sceneDup (by decide) (by decide)

end theorems
example : strIncludes (chars "abc") (chars "") = true := by decide
example : trimStr (chars "  hi ") = chars "hi" := by decide
example : lowerStr (chars "HeAd") = chars "head" := by decide
example :
    rebuildCache [⟨chars "Head", chars "u1", ⟨⟨0,0,0⟩, ⟨0,0,0⟩, ⟨1,1,1⟩⟩⟩] =
      [(chars "head", 0), (chars "u1", 0)] := by decide
example :
    findByPatterns [⟨chars "Head", chars "u1", ⟨⟨0,0,0⟩, ⟨0,0,0⟩, ⟨1,1,1⟩⟩⟩]
      (rebuildCache [⟨chars "Head", chars "u1", ⟨⟨0,0,0⟩, ⟨0,0,0⟩, ⟨1,1,1⟩⟩⟩])
      [chars "head", chars "skull"] = some 0 := by decide
